import Mathlib

/-!
Formal model of the BTC options-chain viewer (src/app.py).

The development shallowly embeds the two data-transformation functions of the
program:

* fetch_options_data (src/app.py lines 94-150): filter the product catalog to
  BTC call/put options, group by underlying, and keep the nearest-expiry
  subset, where instruments are ordered by their settlement_time string with
  the sentinel string "9999-12-31T23:59:59Z" substituted for a missing field.
* create_options_chain_table (src/app.py lines 152-193): partition the
  instruments into calls and puts, key them by strike price (defaulting a
  missing strike_price to 0), and emit one row per strike in ascending strike
  order, taking each price from mark_price (defaulting to 0).

Python dictionaries are modelled as association structures; Python.sort (a
stable sort) is modelled by List.insertionSort, which is likewise stable; the
lexicographic code-point comparison Python applies to settlement_time strings
is modelled by charsLe below.  Products are modelled after the ticker-data
merge of lines 120-123, so mark_price, best_bid and best_ask appear directly
as optional fields of a product.  All functions are total: raising an
exception is not representable, and the None returns of the source appear as
Option.none values.
-/

namespace OptionsChain

/-- Lexicographic comparison of character lists, as Python compares strings:
code point by code point, a proper prefix comparing as smaller. -/
def charsLe : List Char → List Char → Bool
  | [], _ => true
  | _ :: _, [] => false
  | a :: s, b :: t =>
      if a < b then true
      else if b < a then false
      else charsLe s t

/-- Python string comparison, non-strict. -/
def strLe (a b : String) : Bool := charsLe a.data b.data

/-- Python string comparison, strict. -/
def strLt (a b : String) : Bool := !(strLe b a)

theorem charsLe_refl : ∀ s, charsLe s s = true
  | [] => rfl
  | a :: s => by simp [charsLe, lt_irrefl, charsLe_refl s]

theorem charsLe_total : ∀ s t, charsLe s t = true ∨ charsLe t s = true
  | [], _ => Or.inl rfl
  | _ :: _, [] => Or.inr rfl
  | a :: s, b :: t => by
      by_cases hab : a < b
      · exact Or.inl (by simp [charsLe, hab])
      · by_cases hba : b < a
        · exact Or.inr (by simp [charsLe, hba])
        · rcases charsLe_total s t with h | h
          · exact Or.inl (by simp [charsLe, hab, hba, h])
          · exact Or.inr (by simp [charsLe, hab, hba, h])

theorem charsLe_trans : ∀ s t u, charsLe s t = true → charsLe t u = true →
    charsLe s u = true
  | [], _, _, _, _ => rfl
  | _ :: _, [], _, h, _ => by simp [charsLe] at h
  | _ :: _, _ :: _, [], _, h => by simp [charsLe] at h
  | a :: s, b :: t, c :: u, h1, h2 => by
      by_cases hab : a < b
      · by_cases hbc : b < c
        · simp [charsLe, lt_trans hab hbc]
        · by_cases hcb : c < b
          · simp [charsLe, hbc, hcb] at h2
          · have hbc' : b = c := le_antisymm (le_of_not_lt hcb) (le_of_not_lt hbc)
            subst hbc'
            simp [charsLe, hab]
      · by_cases hba : b < a
        · simp [charsLe, hab, hba] at h1
        · have hab' : a = b := le_antisymm (le_of_not_lt hba) (le_of_not_lt hab)
          subst hab'
          by_cases hac : a < c
          · simp [charsLe, hac]
          · by_cases hca : c < a
            · simp [charsLe, hac, hca] at h2
            · have hac' : a = c := le_antisymm (le_of_not_lt hca) (le_of_not_lt hac)
              subst hac'
              simp only [charsLe, lt_irrefl, if_false] at h1 h2 ⊢
              exact charsLe_trans s t u h1 h2

theorem charsLe_antisymm : ∀ s t, charsLe s t = true → charsLe t s = true → s = t
  | [], [], _, _ => rfl
  | [], _ :: _, _, h => by simp [charsLe] at h
  | _ :: _, [], h, _ => by simp [charsLe] at h
  | a :: s, b :: t, h1, h2 => by
      by_cases hab : a < b
      · simp [charsLe, hab, lt_asymm hab] at h2
      · by_cases hba : b < a
        · simp [charsLe, hba, lt_asymm hba] at h1
        · have hab' : a = b := le_antisymm (le_of_not_lt hba) (le_of_not_lt hab)
          subst hab'
          simp only [charsLe, lt_irrefl, if_false] at h1 h2
          exact congrArg (a :: ·) (charsLe_antisymm s t h1 h2)

theorem strLe_refl (a : String) : strLe a a = true := charsLe_refl a.data

theorem strLe_total (a b : String) : strLe a b = true ∨ strLe b a = true :=
  charsLe_total a.data b.data

theorem strLe_trans {a b c : String} (h1 : strLe a b = true) (h2 : strLe b c = true) :
    strLe a c = true := charsLe_trans a.data b.data c.data h1 h2

theorem strLe_antisymm {a b : String} (h1 : strLe a b = true) (h2 : strLe b a = true) :
    a = b := by
  cases a with
  | mk da =>
      cases b with
      | mk db => exact congrArg String.mk (charsLe_antisymm da db h1 h2)

/-- One record of the product catalog after the ticker merge of src/app.py
lines 120-123: the structured catalog fields consumed by the program together
with the (optional) pricing fields a matching ticker contributes.  Every field
the Python code reads with dict.get is optional here, a missing key being
none. -/
structure Product where
  symbol : Option String
  contract_type : Option String
  underlying_symbol : Option String
  strike_price : Option Int
  settlement_time : Option String
  mark_price : Option Rat
  best_bid : Option Rat
  best_ask : Option Rat
deriving DecidableEq

/-- Predicate of src/app.py line 160: the record is a call option. -/
def isCallOption (p : Product) : Bool := p.contract_type.getD "" == "call_options"

/-- Predicate of src/app.py line 161: the record is a put option. -/
def isPutOption (p : Product) : Bool := p.contract_type.getD "" == "put_options"

/-- Filter of src/app.py line 119: BTC options only. -/
def isBTCOption (p : Product) : Bool :=
  (isCallOption p || isPutOption p) && (p.underlying_symbol.getD "" == "BTC")

/-- Grouping key of src/app.py line 132. -/
def groupKey (p : Product) : String := p.underlying_symbol.getD "Unknown"

/-- One step of the grouping loop of src/app.py lines 130-135: append the
option to its group, creating the group at the end when absent, as a Python
dict preserves insertion order. -/
def addToGroups : List (String × List Product) → Product → List (String × List Product)
  | [], p => [(groupKey p, [p])]
  | (k, v) :: rest, p =>
      if k == groupKey p then (k, v ++ [p]) :: rest
      else (k, v) :: addToGroups rest p

/-- Grouping loop of src/app.py lines 130-135. -/
def underlyingGroups (options : List Product) : List (String × List Product) :=
  options.foldl addToGroups []

/-- Sentinel of src/app.py line 142, substituted for a missing
settlement_time when sorting. -/
def sentinelTime : String := "9999-12-31T23:59:59Z"

/-- Sort key of src/app.py line 142. -/
def sortKey (p : Product) : String := (p.settlement_time).getD sentinelTime

/-- Ordering relation the sort of src/app.py line 142 uses. -/
def keyLe (a b : Product) : Prop := strLe (sortKey a) (sortKey b) = true

instance : DecidableRel keyLe := fun a b =>
  inferInstanceAs (Decidable (strLe (sortKey a) (sortKey b) = true))

instance : IsTotal Product keyLe := ⟨fun a b => strLe_total (sortKey a) (sortKey b)⟩

instance : IsTrans Product keyLe := ⟨fun _ _ _ => strLe_trans⟩

/-- Sort of src/app.py line 142 (Python sort is stable, as insertionSort is). -/
def sortedBySettlement (opts : List Product) : List Product :=
  List.insertionSort keyLe opts

/-- Nearest-expiry retention of src/app.py lines 143-148: the settlement_time
of the first element of the sorted list is read back (possibly none) and
every option whose settlement_time equals it is retained. -/
def nearestExpirySelection (opts : List Product) : List Product :=
  match sortedBySettlement opts with
  | [] => []
  | f :: rest => (f :: rest).filter (fun o => o.settlement_time == f.settlement_time)

/-- The nearest expiry the program reports, src/app.py line 144. -/
def nearestExpiryTime (opts : List Product) : Option String :=
  match sortedBySettlement opts with
  | [] => none
  | f :: _ => f.settlement_time

/-- Loop of src/app.py lines 138-148 over the groups: only the BTC group is
processed, and its entry is written when the sorted list is nonempty. -/
def nearestExpiryDict (groups : List (String × List Product)) :
    List (String × List Product) :=
  groups.filterMap (fun kv =>
    if kv.1 == "BTC" && !kv.2.isEmpty then some (kv.1, nearestExpirySelection kv.2)
    else none)

/-- src/app.py lines 112-150, after the network fetches: given the merged
product list, filter to BTC options, return none when no option remains
(line 126-127), otherwise return the filtered options, the groups and the
nearest-expiry groups. -/
def fetch_options_data (products : List Product) :
    Option (List Product × List (String × List Product) × List (String × List Product)) :=
  let options := products.filter isBTCOption
  if options.isEmpty then none
  else
    let groups := underlyingGroups options
    some (options, groups, nearestExpiryDict groups)

/-- One output row of the chain table, src/app.py lines 184-190. -/
structure ChainRow where
  Strike : Int
  Call_Symbol : String
  Call_Price : Rat
  Put_Symbol : String
  Put_Price : Rat
deriving DecidableEq

/-- Strike of an instrument as the table builder reads it, src/app.py lines
167 and 173: a missing strike_price defaults to 0. -/
def strikeOf (p : Product) : Int := p.strike_price.getD 0

/-- Partition of src/app.py line 160. -/
def callsOf (options : List Product) : List Product := options.filter isCallOption

/-- Partition of src/app.py line 161. -/
def putsOf (options : List Product) : List Product := options.filter isPutOption

/-- Value of one entry of the strikes dict of src/app.py line 169. -/
structure StrikeCell where
  call : Option Product
  put : Option Product

/-- The strikes dict of src/app.py lines 164-176: its key list in insertion
order together with the cell stored under each key. -/
structure StrikesDict where
  keys : List Int
  cell : Int → StrikeCell

/-- The empty strikes dict of src/app.py line 164. -/
def emptyStrikes : StrikesDict := ⟨[], fun _ => ⟨none, none⟩⟩

/-- Key insertion as a Python dict performs it: a new key goes to the end. -/
def addKey (ks : List Int) (s : Int) : List Int := if s ∈ ks then ks else ks ++ [s]

/-- One iteration of the call loop of src/app.py lines 166-170: the cell
under the strike of the call has its call component overwritten. -/
def insertCall (d : StrikesDict) (c : Product) : StrikesDict :=
  ⟨addKey d.keys (strikeOf c),
   fun k => if k = strikeOf c then ⟨some c, (d.cell (strikeOf c)).put⟩ else d.cell k⟩

/-- One iteration of the put loop of src/app.py lines 172-176. -/
def insertPut (d : StrikesDict) (p : Product) : StrikesDict :=
  ⟨addKey d.keys (strikeOf p),
   fun k => if k = strikeOf p then ⟨(d.cell (strikeOf p)).call, some p⟩ else d.cell k⟩

/-- The two loops of src/app.py lines 166-176: all calls, then all puts, in
iteration order. -/
def strikesDict (options : List Product) : StrikesDict :=
  List.foldl insertPut (List.foldl insertCall emptyStrikes (callsOf options)) (putsOf options)

/-- Row assembly of src/app.py lines 184-190: symbols default to the empty
string, prices default to 0, both when the instrument is absent and when the
instrument lacks the field. -/
def rowFor (d : StrikesDict) (s : Int) : ChainRow :=
  ⟨s,
   ((d.cell s).call.bind Product.symbol).getD "",
   ((d.cell s).call.bind Product.mark_price).getD 0,
   ((d.cell s).put.bind Product.symbol).getD "",
   ((d.cell s).put.bind Product.mark_price).getD 0⟩

/-- sorted(strikes.keys()) of src/app.py line 180. -/
def sortedStrikes (d : StrikesDict) : List Int :=
  List.insertionSort (fun a b : Int => a ≤ b) d.keys

/-- Loop of src/app.py lines 179-191: one row per strike, ascending. -/
def buildChainRows (options : List Product) : List ChainRow :=
  (sortedStrikes (strikesDict options)).map (rowFor (strikesDict options))

/-- src/app.py lines 152-193: returns none when the underlying is not a key
of the passed dict (lines 154-155), otherwise the assembled row list. -/
def create_options_chain_table (options_data : List (String × List Product))
    (underlying : String) : Option (List ChainRow) :=
  match options_data.lookup underlying with
  | none => none
  | some options => some (buildChainRows options)

/-- The instrument of a list that the repeated dict assignment of src/app.py
line 170 (resp. 176) leaves in a cell: the last one of the list bearing the
given strike. -/
def lastAt (l : List Product) (s : Int) : Option Product :=
  (l.filter (fun p => strikeOf p == s)).getLast?

/-- Erase the order-book fields of a product, leaving all fields the chain
builder reads untouched. -/
def clearBidAsk (p : Product) : Product :=
  { p with best_bid := none, best_ask := none }

/-- BTC call at strike 100 whose ticker carries no mark_price. -/
def callNoMark : Product :=
  ⟨some "C-BTC-100-A", some "call_options", some "BTC", some 100,
   some "2025-08-29T12:00:00Z", none, none, none⟩

/-- BTC call at strike 100 with a live order book (bid 10, ask 12) but no
mark_price. -/
def callBidAskOnly : Product :=
  ⟨some "C-BTC-100-B", some "call_options", some "BTC", some 100,
   some "2025-08-29T12:00:00Z", none, some 10, some 12⟩

/-- BTC call whose settlement_time lies in the past. -/
def pastCall : Product :=
  ⟨some "C-BTC-100-P", some "call_options", some "BTC", some 100,
   some "2020-01-01T00:00:00Z", some 3, none, none⟩

/-- BTC call with no strike_price field at all. -/
def callNoStrike : Product :=
  ⟨some "BTC-NOSTRIKE", some "call_options", some "BTC", none,
   some "2025-08-29T12:00:00Z", some 5, none, none⟩

/-- First of two BTC calls sharing strike 100. -/
def callA : Product :=
  ⟨some "A", some "call_options", some "BTC", some 100,
   some "2025-08-29T12:00:00Z", some 1, none, none⟩

/-- Second of two BTC calls sharing strike 100. -/
def callB : Product :=
  ⟨some "B", some "call_options", some "BTC", some 100,
   some "2025-08-29T12:00:00Z", some 2, none, none⟩

/-- BTC put at strike 100. -/
def putP : Product :=
  ⟨some "P", some "put_options", some "BTC", some 100,
   some "2025-08-29T12:00:00Z", some 4, none, none⟩

/-- BTC put at strike 100 whose ticker carries no mark_price. -/
def putNoMark : Product :=
  ⟨some "P-BTC-100-A", some "put_options", some "BTC", some 100,
   some "2025-08-29T12:00:00Z", none, none, none⟩

/-- BTC put with no strike_price field at all. -/
def putNoStrike : Product :=
  ⟨some "BTC-NOSTRIKE-P", some "put_options", some "BTC", none,
   some "2025-08-29T12:00:00Z", some 6, none, none⟩

/-- Second of two BTC puts sharing strike 100. -/
def putQ : Product :=
  ⟨some "Q", some "put_options", some "BTC", some 100,
   some "2025-08-29T12:00:00Z", some 6, none, none⟩

/-- BTC call lacking the settlement_time field. -/
def optNoSettle : Product :=
  ⟨some "NOSET", some "call_options", some "BTC", some 100,
   none, some 1, none, none⟩

/-- BTC call whose settlement_time equals the sentinel string itself. -/
def optAtSentinel : Product :=
  ⟨some "ATSENT", some "call_options", some "BTC", some 200,
   some "9999-12-31T23:59:59Z", some 1, none, none⟩

/-- BTC futures product: not an option, filtered out everywhere. -/
def futuresBTC : Product :=
  ⟨some "BTCUSD", some "futures", some "BTC", some 50,
   some "2024-01-01T00:00:00Z", some 7, none, none⟩

/-- Instrument at the middle expiry T2, for the expiry-selection scenario. -/
def instT2 : Product :=
  ⟨some "C-BTC-100-T2", some "call_options", some "BTC", some 100,
   some "2025-09-05T12:00:00Z", some 1, none, none⟩

/-- First instrument at the earliest expiry T1. -/
def instT1a : Product :=
  ⟨some "C-BTC-100-T1", some "call_options", some "BTC", some 100,
   some "2025-08-29T12:00:00Z", some 1, none, none⟩

/-- Second instrument at the earliest expiry T1. -/
def instT1b : Product :=
  ⟨some "P-BTC-100-T1", some "put_options", some "BTC", some 100,
   some "2025-08-29T12:00:00Z", some 1, none, none⟩

/-- Instrument at the latest expiry T3. -/
def instT3 : Product :=
  ⟨some "C-BTC-100-T3", some "call_options", some "BTC", some 100,
   some "2025-09-12T12:00:00Z", some 1, none, none⟩

theorem getLast?_mem {α : Type} {a : α} : ∀ {l : List α}, l.getLast? = some a → a ∈ l
  | [], h => by simp at h
  | [_], h => by simp_all
  | b :: c :: t, h => by
      rw [List.getLast?_cons_cons] at h
      exact List.mem_cons_of_mem _ (getLast?_mem h)

theorem getLast?_cons_or {α : Type} (a : α) (l : List α) :
    (a :: l).getLast? = l.getLast?.or (some a) := by
  induction l generalizing a with
  | nil => rfl
  | cons b t ih =>
      rw [List.getLast?_cons_cons, ih b, Option.or_assoc]
      rfl

theorem lastAt_cons (c : Product) (l : List Product) (s : Int) :
    lastAt (c :: l) s =
      if strikeOf c = s then (lastAt l s).or (some c) else lastAt l s := by
  by_cases h : strikeOf c = s
  · simp only [lastAt, List.filter_cons, h, if_pos, beq_self_eq_true, if_true]
    exact getLast?_cons_or c _
  · have hb : (strikeOf c == s) = false := by simp [h]
    simp only [lastAt, List.filter_cons, hb]
    rw [if_neg h]
    rfl

theorem lastAt_spec {l : List Product} {s : Int} {c : Product}
    (h : lastAt l s = some c) : c ∈ l ∧ strikeOf c = s := by
  have hm : c ∈ l.filter (fun p => strikeOf p == s) := getLast?_mem h
  rcases List.mem_filter.mp hm with ⟨h1, h2⟩
  exact ⟨h1, by simpa using h2⟩

theorem mem_addKey {ks : List Int} {s x : Int} :
    x ∈ addKey ks s ↔ x ∈ ks ∨ x = s := by
  unfold addKey
  by_cases h : s ∈ ks
  · rw [if_pos h]
    constructor
    · exact Or.inl
    · rintro (hx | rfl)
      · exact hx
      · exact h
  · rw [if_neg h]
    simp

theorem nodup_addKey {ks : List Int} {s : Int} (h : ks.Nodup) :
    (addKey ks s).Nodup := by
  unfold addKey
  by_cases hm : s ∈ ks
  · rwa [if_pos hm]
  · rw [if_neg hm]
    simp [List.nodup_append, h, hm]

theorem foldl_insert_keys_mem (f : StrikesDict → Product → StrikesDict)
    (hf : ∀ d x, (f d x).keys = addKey d.keys (strikeOf x)) :
    ∀ (cs : List Product) (d : StrikesDict) (x : Int),
      x ∈ (List.foldl f d cs).keys ↔ x ∈ d.keys ∨ ∃ c ∈ cs, strikeOf c = x
  | [], d, x => by simp
  | c :: cs, d, x => by
      rw [List.foldl_cons, foldl_insert_keys_mem f hf cs (f d c) x, hf, mem_addKey]
      simp only [List.mem_cons]
      constructor
      · rintro ((hx | rfl) | ⟨c', hc', he⟩)
        · exact Or.inl hx
        · exact Or.inr ⟨c, Or.inl rfl, rfl⟩
        · exact Or.inr ⟨c', Or.inr hc', he⟩
      · rintro (hx | ⟨c', (rfl | hc'), he⟩)
        · exact Or.inl (Or.inl hx)
        · exact Or.inl (Or.inr he.symm)
        · exact Or.inr ⟨c', hc', he⟩

theorem foldl_insert_keys_nodup (f : StrikesDict → Product → StrikesDict)
    (hf : ∀ d x, (f d x).keys = addKey d.keys (strikeOf x)) :
    ∀ (cs : List Product) (d : StrikesDict), d.keys.Nodup →
      (List.foldl f d cs).keys.Nodup
  | [], _, h => h
  | c :: cs, d, h => by
      rw [List.foldl_cons]
      exact foldl_insert_keys_nodup f hf cs (f d c) (by rw [hf]; exact nodup_addKey h)

theorem foldl_insert_keys_eq (f : StrikesDict → Product → StrikesDict)
    (hf : ∀ d x, (f d x).keys = addKey d.keys (strikeOf x)) :
    ∀ (cs : List Product) (d : StrikesDict),
      (List.foldl f d cs).keys = cs.foldl (fun ks c => addKey ks (strikeOf c)) d.keys
  | [], _ => rfl
  | c :: cs, d => by
      rw [List.foldl_cons, List.foldl_cons, foldl_insert_keys_eq f hf cs (f d c), hf]

theorem insertCall_keys (d : StrikesDict) (c : Product) :
    (insertCall d c).keys = addKey d.keys (strikeOf c) := rfl

theorem insertPut_keys (d : StrikesDict) (p : Product) :
    (insertPut d p).keys = addKey d.keys (strikeOf p) := rfl

theorem foldl_insertCall_cell_call :
    ∀ (cs : List Product) (d : StrikesDict) (s : Int),
      ((List.foldl insertCall d cs).cell s).call = (lastAt cs s).or ((d.cell s).call)
  | [], _, _ => rfl
  | c :: cs, d, s => by
      rw [List.foldl_cons, foldl_insertCall_cell_call cs (insertCall d c) s, lastAt_cons]
      by_cases h : s = strikeOf c
      · rw [if_pos h.symm, Option.or_assoc]
        simp only [insertCall, if_pos h]
        rfl
      · rw [if_neg (fun he => h he.symm)]
        simp only [insertCall, if_neg h]

theorem foldl_insertCall_cell_put :
    ∀ (cs : List Product) (d : StrikesDict) (s : Int),
      ((List.foldl insertCall d cs).cell s).put = (d.cell s).put
  | [], _, _ => rfl
  | c :: cs, d, s => by
      rw [List.foldl_cons, foldl_insertCall_cell_put cs (insertCall d c) s]
      by_cases h : s = strikeOf c
      · simp only [insertCall, if_pos h, h]
        rfl
      · simp only [insertCall, if_neg h]

theorem foldl_insertPut_cell_put :
    ∀ (cs : List Product) (d : StrikesDict) (s : Int),
      ((List.foldl insertPut d cs).cell s).put = (lastAt cs s).or ((d.cell s).put)
  | [], _, _ => rfl
  | c :: cs, d, s => by
      rw [List.foldl_cons, foldl_insertPut_cell_put cs (insertPut d c) s, lastAt_cons]
      by_cases h : s = strikeOf c
      · rw [if_pos h.symm, Option.or_assoc]
        simp only [insertPut, if_pos h]
        rfl
      · rw [if_neg (fun he => h he.symm)]
        simp only [insertPut, if_neg h]

theorem foldl_insertPut_cell_call :
    ∀ (cs : List Product) (d : StrikesDict) (s : Int),
      ((List.foldl insertPut d cs).cell s).call = (d.cell s).call
  | [], _, _ => rfl
  | c :: cs, d, s => by
      rw [List.foldl_cons, foldl_insertPut_cell_call cs (insertPut d c) s]
      by_cases h : s = strikeOf c
      · simp only [insertPut, if_pos h, h]
        rfl
      · simp only [insertPut, if_neg h]

theorem strikesDict_cell_call (options : List Product) (s : Int) :
    ((strikesDict options).cell s).call = lastAt (callsOf options) s := by
  rw [strikesDict, foldl_insertPut_cell_call, foldl_insertCall_cell_call]
  exact Option.or_none

theorem strikesDict_cell_put (options : List Product) (s : Int) :
    ((strikesDict options).cell s).put = lastAt (putsOf options) s := by
  rw [strikesDict, foldl_insertPut_cell_put, foldl_insertCall_cell_put]
  exact Option.or_none

theorem strikesDict_keys_mem (options : List Product) (s : Int) :
    s ∈ (strikesDict options).keys ↔
      (∃ c ∈ callsOf options, strikeOf c = s) ∨ (∃ p ∈ putsOf options, strikeOf p = s) := by
  rw [strikesDict, foldl_insert_keys_mem insertPut insertPut_keys,
    foldl_insert_keys_mem insertCall insertCall_keys]
  simp [emptyStrikes]

theorem strikesDict_keys_nodup (options : List Product) :
    (strikesDict options).keys.Nodup := by
  rw [strikesDict]
  exact foldl_insert_keys_nodup insertPut insertPut_keys _ _
    (foldl_insert_keys_nodup insertCall insertCall_keys _ _ List.nodup_nil)

theorem sortedStrikes_mem (d : StrikesDict) (x : Int) :
    x ∈ sortedStrikes d ↔ x ∈ d.keys := by
  simp [sortedStrikes]

theorem buildChainRows_strikes (options : List Product) :
    (buildChainRows options).map ChainRow.Strike = sortedStrikes (strikesDict options) := by
  rw [buildChainRows, List.map_map]
  have h : ChainRow.Strike ∘ rowFor (strikesDict options) = id := rfl
  rw [h, List.map_id]

theorem mem_buildChainRows {options : List Product} {r : ChainRow} :
    r ∈ buildChainRows options ↔
      ∃ s ∈ (strikesDict options).keys, r = rowFor (strikesDict options) s := by
  rw [buildChainRows, List.mem_map]
  constructor
  · rintro ⟨s, hs, rfl⟩
    exact ⟨s, (sortedStrikes_mem _ s).mp hs, rfl⟩
  · rintro ⟨s, hs, rfl⟩
    exact ⟨s, (sortedStrikes_mem _ s).mpr hs, rfl⟩

theorem sortedBySettlement_perm (opts : List Product) :
    List.Perm (sortedBySettlement opts) opts := List.perm_insertionSort keyLe opts

theorem sortedBySettlement_sorted (opts : List Product) :
    List.Sorted keyLe (sortedBySettlement opts) := List.sorted_insertionSort keyLe opts

theorem buildChainRows_congr {o1 o2 : List Product}
    (h1 : callsOf o1 = callsOf o2) (h2 : putsOf o1 = putsOf o2) :
    buildChainRows o1 = buildChainRows o2 := by
  unfold buildChainRows strikesDict
  rw [h1, h2]

theorem callsOf_filter_options (options : List Product) :
    callsOf (options.filter (fun q => isCallOption q || isPutOption q)) =
      callsOf options := by
  unfold callsOf
  rw [List.filter_filter]
  congr 1
  funext a
  cases h : isCallOption a <;> simp [h]

theorem putsOf_filter_options (options : List Product) :
    putsOf (options.filter (fun q => isCallOption q || isPutOption q)) =
      putsOf options := by
  unfold putsOf
  rw [List.filter_filter]
  congr 1
  funext a
  cases h : isPutOption a <;> simp [h]

/-- C1: for every instrument set given to the chain-table builder, the set of
strike values appearing in the output table equals the union of the strikes
present among the call instruments and the strikes present among the put
instruments: a strike that has only a call (or only a put) still yields a
row, and no strike absent from both partitions yields a row. -/
theorem chain_strikes_union (options : List Product) (s : Int) :
    (∃ r ∈ buildChainRows options, r.Strike = s) ↔
      (∃ c ∈ callsOf options, strikeOf c = s) ∨
        (∃ p ∈ putsOf options, strikeOf p = s) := by
  rw [← strikesDict_keys_mem]
  constructor
  · rintro ⟨r, hr, hs⟩
    rcases mem_buildChainRows.mp hr with ⟨t, ht, rfl⟩
    have hts : t = s := hs
    exact hts ▸ ht
  · intro hs
    exact ⟨rowFor (strikesDict options) s, mem_buildChainRows.mpr ⟨s, hs, rfl⟩, rfl⟩

/-- C6: for every input instrument set, the output rows of the chain table
are strictly ascending by strike value, and no two rows share the same
strike (strict ascent forces pairwise distinct strikes). -/
theorem chain_rows_strictly_ascending (options : List Product) :
    List.Sorted (fun r1 r2 : ChainRow => r1.Strike < r2.Strike) (buildChainRows options) := by
  have hs : List.Sorted (fun a b : Int => a ≤ b) (sortedStrikes (strikesDict options)) :=
    List.sorted_insertionSort _ _
  have hn : (sortedStrikes (strikesDict options)).Nodup :=
    ((List.perm_insertionSort (fun a b : Int => a ≤ b) (strikesDict options).keys).nodup_iff).mpr
      (strikesDict_keys_nodup options)
  have hlt : List.Pairwise (fun a b : Int => a < b) (sortedStrikes (strikesDict options)) := by
    refine List.Pairwise.imp ?_ (List.Pairwise.and hs hn)
    intro a b hab
    exact lt_of_le_of_ne hab.1 hab.2
  exact List.pairwise_map.mpr hlt

/-- C9: a catalog whose BTC-options filter retains nothing (in particular an
empty catalog) makes fetch_options_data return the none signal rather than a
table, and the table builder handed the resulting empty dict likewise
returns none; both functions are total, so no exception can be raised. -/
theorem empty_filter_no_data (products : List Product)
    (h : products.filter isBTCOption = []) :
    fetch_options_data products = none ∧ create_options_chain_table [] "BTC" = none := by
  constructor
  · simp [fetch_options_data, h]
  · rfl

/-- Witness for C9 at a concrete catalog holding one non-option product. -/
theorem empty_filter_no_data_witness :
    fetch_options_data [futuresBTC] = none ∧ create_options_chain_table [] "BTC" = none :=
  empty_filter_no_data [futuresBTC] (by decide)

/-- C2 counterexample: the chain builder renders an instrument whose quote
data carries no price as the number 0, not as an undefined field: with the
single call instrument callNoMark (mark_price absent) the produced row holds
Call_Price = 0, contradicting the claim that the field is never the number
0; the row itself is emitted. -/
theorem quote_missing_price_zero_counterexample :
    callNoMark.mark_price = none ∧
      buildChainRows [callNoMark] = [⟨100, "C-BTC-100-A", 0, "", 0⟩] :=
  ⟨rfl, by decide⟩

/-- C2 as amended: for every instrument whose quote data is missing a price
(no mark_price), whether the instrument is a call or a put, the
corresponding price field in that instrument's row of the chain is the
default 0, and the row for that strike is still emitted. -/
theorem quote_missing_price_zero (options : List Product) (s : Int) :
    (∀ c : Product, lastAt (callsOf options) s = some c → c.mark_price = none →
        ∃ r ∈ buildChainRows options, r.Strike = s ∧ r.Call_Price = 0) ∧
      (∀ q : Product, lastAt (putsOf options) s = some q → q.mark_price = none →
        ∃ r ∈ buildChainRows options, r.Strike = s ∧ r.Put_Price = 0) := by
  constructor
  · intro c hc hm
    rcases lastAt_spec hc with ⟨hmem, hstrike⟩
    refine ⟨rowFor (strikesDict options) s,
      mem_buildChainRows.mpr
        ⟨s, (strikesDict_keys_mem options s).mpr (Or.inl ⟨c, hmem, hstrike⟩), rfl⟩,
      rfl, ?_⟩
    show (((strikesDict options).cell s).call.bind Product.mark_price).getD 0 = 0
    rw [strikesDict_cell_call, hc]
    simp [hm]
  · intro q hq hm
    rcases lastAt_spec hq with ⟨hmem, hstrike⟩
    refine ⟨rowFor (strikesDict options) s,
      mem_buildChainRows.mpr
        ⟨s, (strikesDict_keys_mem options s).mpr (Or.inr ⟨q, hmem, hstrike⟩), rfl⟩,
      rfl, ?_⟩
    show (((strikesDict options).cell s).put.bind Product.mark_price).getD 0 = 0
    rw [strikesDict_cell_put, hq]
    simp [hm]

/-- Witness for C2 as amended, at a catalog holding one call and one put,
both without mark_price, at strike 100. -/
theorem quote_missing_price_zero_witness :
    (∃ r ∈ buildChainRows [callNoMark, putNoMark], r.Strike = 100 ∧ r.Call_Price = 0) ∧
      (∃ r ∈ buildChainRows [callNoMark, putNoMark], r.Strike = 100 ∧ r.Put_Price = 0) :=
  ⟨(quote_missing_price_zero [callNoMark, putNoMark] 100).1 callNoMark (by decide) rfl,
   (quote_missing_price_zero [callNoMark, putNoMark] 100).2 putNoMark (by decide) rfl⟩

/-- C7 counterexample: an instrument from which no strike is derivable (its
strike_price field is absent) is not excluded from the chain: the builder
files it under the default strike 0 and emits a row sourced from it,
contradicting the claim that such an instrument is dropped. -/
theorem unresolvable_strike_included_counterexample :
    callNoStrike.strike_price = none ∧
      buildChainRows [callNoStrike] = [⟨0, "BTC-NOSTRIKE", 5, "", 0⟩] :=
  ⟨rfl, by decide⟩

/-- C7 as amended: for every instrument set, the instruments whose
contract_type marks them as neither a call nor a put never influence the
chain (removing all of them leaves the table unchanged, and the build never
aborts, all functions being total); but an option, call or put, lacking a
derivable strike is not excluded: it is filed under the default strike 0
and still yields a row. -/
theorem non_option_excluded_strike_defaulted (options : List Product) :
    buildChainRows (options.filter (fun q => isCallOption q || isPutOption q)) =
        buildChainRows options ∧
      ∀ p ∈ options, isCallOption p = true ∨ isPutOption p = true →
        p.strike_price = none →
        ∃ r ∈ buildChainRows options, r.Strike = 0 := by
  constructor
  · exact buildChainRows_congr (callsOf_filter_options options) (putsOf_filter_options options)
  · intro p hp hopt hs
    have hps : strikeOf p = 0 := by rw [strikeOf, hs]; rfl
    refine ⟨rowFor (strikesDict options) 0,
      mem_buildChainRows.mpr ⟨0, (strikesDict_keys_mem options 0).mpr ?_, rfl⟩, rfl⟩
    rcases hopt with hc | hq
    · exact Or.inl ⟨p, List.mem_filter.mpr ⟨hp, hc⟩, hps⟩
    · exact Or.inr ⟨p, List.mem_filter.mpr ⟨hp, hq⟩, hps⟩

/-- Witness for C7 as amended: a catalog holding a futures product, a call
with no strike_price and a put with no strike_price; the put instantiates
the strike-default clause. -/
theorem non_option_excluded_strike_defaulted_witness :
    buildChainRows ([futuresBTC, callNoStrike, putNoStrike].filter
        (fun q => isCallOption q || isPutOption q)) =
        buildChainRows [futuresBTC, callNoStrike, putNoStrike] ∧
      ∃ r ∈ buildChainRows [futuresBTC, callNoStrike, putNoStrike], r.Strike = 0 :=
  ⟨(non_option_excluded_strike_defaulted [futuresBTC, callNoStrike, putNoStrike]).1,
   (non_option_excluded_strike_defaulted [futuresBTC, callNoStrike, putNoStrike]).2
     putNoStrike (by decide) (Or.inr (by decide)) rfl⟩

/-- C8 counterexample: two call instruments callA and callB share strike 100
and callA comes first in catalog iteration order, yet the produced call cell
carries the symbol and price of callB, the instrument encountered last, so
the builder does not use the first-encountered instrument. -/
theorem duplicate_strike_first_encountered_counterexample :
    callA.symbol = some "A" ∧ callB.symbol = some "B" ∧ ("A" : String) ≠ "B" ∧
      buildChainRows [callA, callB] = [⟨100, "B", 2, "", 0⟩] :=
  ⟨rfl, rfl, by decide, by decide⟩

/-- C8 as amended: when more than one instrument of the same option type
shares a strike, the chain-table builder deterministically uses the
instrument encountered last in catalog iteration order for that strike's
cell: whichever call (resp. put) the repeated assignment leaves last at a
strike supplies the call (resp. put) symbol and price of that strike's row,
each side independently of the other. -/
theorem duplicate_strike_last_encountered (options : List Product) (s : Int) :
    (∀ c : Product, lastAt (callsOf options) s = some c →
        ∃ r ∈ buildChainRows options, r.Strike = s ∧
          r.Call_Symbol = c.symbol.getD "" ∧ r.Call_Price = c.mark_price.getD 0) ∧
      (∀ q : Product, lastAt (putsOf options) s = some q →
        ∃ r ∈ buildChainRows options, r.Strike = s ∧
          r.Put_Symbol = q.symbol.getD "" ∧ r.Put_Price = q.mark_price.getD 0) := by
  constructor
  · intro c hc
    rcases lastAt_spec hc with ⟨hmem, hstrike⟩
    refine ⟨rowFor (strikesDict options) s,
      mem_buildChainRows.mpr
        ⟨s, (strikesDict_keys_mem options s).mpr (Or.inl ⟨c, hmem, hstrike⟩), rfl⟩,
      rfl, ?_, ?_⟩
    · show (((strikesDict options).cell s).call.bind Product.symbol).getD "" = c.symbol.getD ""
      rw [strikesDict_cell_call, hc]
      rfl
    · show (((strikesDict options).cell s).call.bind Product.mark_price).getD 0 =
        c.mark_price.getD 0
      rw [strikesDict_cell_call, hc]
      rfl
  · intro q hq
    rcases lastAt_spec hq with ⟨hmem, hstrike⟩
    refine ⟨rowFor (strikesDict options) s,
      mem_buildChainRows.mpr
        ⟨s, (strikesDict_keys_mem options s).mpr (Or.inr ⟨q, hmem, hstrike⟩), rfl⟩,
      rfl, ?_, ?_⟩
    · show (((strikesDict options).cell s).put.bind Product.symbol).getD "" = q.symbol.getD ""
      rw [strikesDict_cell_put, hq]
      rfl
    · show (((strikesDict options).cell s).put.bind Product.mark_price).getD 0 =
        q.mark_price.getD 0
      rw [strikesDict_cell_put, hq]
      rfl

/-- Witness for C8 as amended: two calls and two puts share strike 100; the
later call callB wins the call cell and the later put putQ wins the put
cell. -/
theorem duplicate_strike_last_encountered_witness :
    (∃ r ∈ buildChainRows [callA, callB, putP, putQ], r.Strike = 100 ∧
        r.Call_Symbol = callB.symbol.getD "" ∧ r.Call_Price = callB.mark_price.getD 0) ∧
      (∃ r ∈ buildChainRows [callA, callB, putP, putQ], r.Strike = 100 ∧
        r.Put_Symbol = putQ.symbol.getD "" ∧ r.Put_Price = putQ.mark_price.getD 0) :=
  ⟨(duplicate_strike_last_encountered [callA, callB, putP, putQ] 100).1 callB (by decide),
   (duplicate_strike_last_encountered [callA, callB, putP, putQ] 100).2 putQ (by decide)⟩

theorem callsOf_map_clearBidAsk (options : List Product) :
    callsOf (options.map clearBidAsk) = (callsOf options).map clearBidAsk := by
  unfold callsOf
  rw [List.filter_map]
  rfl

theorem putsOf_map_clearBidAsk (options : List Product) :
    putsOf (options.map clearBidAsk) = (putsOf options).map clearBidAsk := by
  unfold putsOf
  rw [List.filter_map]
  rfl

theorem lastAt_map_clearBidAsk (l : List Product) (s : Int) :
    lastAt (l.map clearBidAsk) s = (lastAt l s).map clearBidAsk := by
  unfold lastAt
  rw [List.filter_map, List.getLast?_map]
  rfl

theorem strikesDict_keys_map_clearBidAsk (options : List Product) :
    (strikesDict (options.map clearBidAsk)).keys = (strikesDict options).keys := by
  unfold strikesDict
  rw [callsOf_map_clearBidAsk, putsOf_map_clearBidAsk,
    foldl_insert_keys_eq insertPut insertPut_keys,
    foldl_insert_keys_eq insertCall insertCall_keys,
    foldl_insert_keys_eq insertPut insertPut_keys,
    foldl_insert_keys_eq insertCall insertCall_keys,
    List.foldl_map, List.foldl_map]
  rfl

theorem rowFor_map_clearBidAsk (options : List Product) (s : Int) :
    rowFor (strikesDict (options.map clearBidAsk)) s = rowFor (strikesDict options) s := by
  unfold rowFor
  rw [strikesDict_cell_call, strikesDict_cell_call, strikesDict_cell_put,
    strikesDict_cell_put, callsOf_map_clearBidAsk, putsOf_map_clearBidAsk,
    lastAt_map_clearBidAsk, lastAt_map_clearBidAsk]
  cases lastAt (callsOf options) s <;> cases lastAt (putsOf options) s <;> rfl

theorem buildChainRows_map_clearBidAsk (options : List Product) :
    buildChainRows (options.map clearBidAsk) = buildChainRows options := by
  unfold buildChainRows
  have hf : rowFor (strikesDict (options.map clearBidAsk)) = rowFor (strikesDict options) :=
    funext (rowFor_map_clearBidAsk options)
  rw [hf]
  unfold sortedStrikes
  rw [strikesDict_keys_map_clearBidAsk]

/-- C3 counterexample: no mid price is ever computed.  The instrument
callBidAskOnly carries both bestBid = 10 and bestAsk = 12, so the claim
requires the price (10+12)/2 = 11, yet the chain renders its price as 0 (no
mark_price being present); 0 is neither 11 nor an undefined value. -/
theorem mid_price_counterexample :
    callBidAskOnly.best_bid = some 10 ∧ callBidAskOnly.best_ask = some 12 ∧
      ((10 : Rat) + 12) / 2 = 11 ∧
      buildChainRows [callBidAskOnly] = [⟨100, "C-BTC-100-B", 0, "", 0⟩] ∧
      (0 : Rat) ≠ 11 :=
  ⟨rfl, rfl, by norm_num, by decide, by decide⟩

/-- C3 as amended: the chain never computes a mid price.  Its price fields
are taken from mark_price alone, defaulting to 0 when the instrument or its
mark_price is absent, and the bestBid/bestAsk fields have no influence on
the output: clearing them from every instrument leaves the table unchanged. -/
theorem price_from_mark_price_only (options : List Product) :
    buildChainRows (options.map clearBidAsk) = buildChainRows options ∧
      ∀ r ∈ buildChainRows options,
        r.Call_Price = ((lastAt (callsOf options) r.Strike).bind Product.mark_price).getD 0 ∧
        r.Put_Price = ((lastAt (putsOf options) r.Strike).bind Product.mark_price).getD 0 := by
  refine ⟨buildChainRows_map_clearBidAsk options, ?_⟩
  rintro r hr
  rcases mem_buildChainRows.mp hr with ⟨s, hs, rfl⟩
  constructor
  · show (((strikesDict options).cell s).call.bind Product.mark_price).getD 0 = _
    rw [strikesDict_cell_call]
    rfl
  · show (((strikesDict options).cell s).put.bind Product.mark_price).getD 0 = _
    rw [strikesDict_cell_put]
    rfl

/-- Witness for C3 as amended, applied to a one-instrument catalog with a
live order book. -/
theorem price_from_mark_price_only_witness :
    buildChainRows ([callBidAskOnly].map clearBidAsk) = buildChainRows [callBidAskOnly] :=
  (price_from_mark_price_only [callBidAskOnly]).1

/-- C4: when every instrument carries a settlement_time, nearest-expiry
selection returns exactly the instruments whose settlement_time is a
minimum of the set (in the lexicographic string order the code sorts by):
ties at the minimum are all retained and nothing later is included. -/
theorem nearest_expiry_is_min (opts : List Product) (o : Product)
    (h1 : opts ≠ []) (h2 : ∀ p ∈ opts, (p.settlement_time).isSome = true) :
    o ∈ nearestExpirySelection opts ↔
      (o ∈ opts ∧ ∃ t, o.settlement_time = some t ∧
        ∀ p ∈ opts, ∀ u, p.settlement_time = some u → strLe t u = true) := by
  have hperm := sortedBySettlement_perm opts
  have hsort := sortedBySettlement_sorted opts
  cases hl : sortedBySettlement opts with
  | nil =>
      rw [hl] at hperm
      exact absurd hperm.symm.eq_nil h1
  | cons f rest =>
      rw [hl] at hperm hsort
      have hf_opts : f ∈ opts := hperm.mem_iff.mp (List.mem_cons_self f rest)
      obtain ⟨m, hm⟩ := Option.isSome_iff_exists.mp (h2 f hf_opts)
      have head_min : ∀ p ∈ opts,
          strLe (Option.getD f.settlement_time sentinelTime)
            (Option.getD p.settlement_time sentinelTime) = true := by
        intro p hp
        rcases List.mem_cons.mp (hperm.mem_iff.mpr hp) with rfl | hp'
        · exact strLe_refl _
        · exact List.rel_of_sorted_cons hsort p hp'
      simp only [nearestExpirySelection, hl]
      constructor
      · intro ho
        rcases List.mem_filter.mp ho with ⟨homem, hbeq⟩
        have hos : o.settlement_time = f.settlement_time := by simpa using hbeq
        refine ⟨hperm.mem_iff.mp homem, m, by rw [hos, hm], ?_⟩
        intro p hp u hu
        have hk := head_min p hp
        rw [hm, hu] at hk
        exact hk
      · rintro ⟨ho_opts, t, hot, hmin⟩
        have hma : strLe t m = true := hmin f hf_opts m hm
        have hmb : strLe m t = true := by
          have hk := head_min o ho_opts
          rw [hm, hot] at hk
          exact hk
        have hmt : t = m := strLe_antisymm hma hmb
        subst hmt
        refine List.mem_filter.mpr ⟨hperm.mem_iff.mpr ho_opts, ?_⟩
        show (o.settlement_time == f.settlement_time) = true
        rw [hot, hm]
        simp

/-- Witness for C4, at the catalog of spec scenario P4: settlement times
[T2, T1, T1, T3] with T1 earliest. -/
theorem nearest_expiry_is_min_witness :
    instT1a ∈ nearestExpirySelection [instT2, instT1a, instT1b, instT3] ↔
      (instT1a ∈ [instT2, instT1a, instT1b, instT3] ∧
        ∃ t, instT1a.settlement_time = some t ∧
          ∀ p ∈ [instT2, instT1a, instT1b, instT3], ∀ u,
            p.settlement_time = some u → strLe t u = true) :=
  nearest_expiry_is_min [instT2, instT1a, instT1b, instT3] instT1a (by decide) (by decide)

/-- C5 counterexample: the code applies no future-only filter.  At query
time 2026-10-12 the catalog holding the single BTC call pastCall, expired on
2020-01-01, still yields pastCall inside the selected nearest-expiry set of
fetch_options_data. -/
theorem no_future_filter_counterexample :
    pastCall.settlement_time = some "2020-01-01T00:00:00Z" ∧
      strLe "2020-01-01T00:00:00Z" "2026-10-12T00:00:00Z" = true ∧
      fetch_options_data [pastCall] =
        some ([pastCall], [("BTC", [pastCall])], [("BTC", [pastCall])]) :=
  ⟨rfl, by decide, by decide⟩

/-- C5 as amended: nearest-expiry selection never consults the query time:
a sole instrument is selected, and its settlement time reported as the
nearest expiry, whatever settlement_time value it carries, in particular one
at or before the query time. -/
theorem any_settlement_time_selected (p : Product) (t : String)
    (h : p.settlement_time = some t) :
    nearestExpirySelection [p] = [p] ∧ nearestExpiryTime [p] = some t := by
  have hsingle : sortedBySettlement [p] = [p] := rfl
  constructor
  · simp only [nearestExpirySelection, hsingle]
    simp [h]
  · simp only [nearestExpiryTime, hsingle]
    exact h

/-- Witness for C5 as amended, at the expired instrument pastCall. -/
theorem any_settlement_time_selected_witness :
    nearestExpirySelection [pastCall] = [pastCall] ∧
      nearestExpiryTime [pastCall] = some "2020-01-01T00:00:00Z" :=
  any_settlement_time_selected pastCall "2020-01-01T00:00:00Z" rfl

/-- C10 counterexample: the claim fails when an instrument carries a
settlement_time equal to the sentinel itself (a value no greater than the
sentinel): the missing-field instrument optNoSettle ties with optAtSentinel,
stable sorting leaves optNoSettle first, and the selected set is exactly
[optNoSettle] although optAtSentinel does carry a settlement_time no greater
than the sentinel, and although not every option lacks the field. -/
theorem sentinel_tie_counterexample :
    optAtSentinel.settlement_time = some sentinelTime ∧
      strLe sentinelTime sentinelTime = true ∧
      optNoSettle.settlement_time = none ∧
      nearestExpirySelection [optNoSettle, optAtSentinel] = [optNoSettle] ∧
      nearestExpiryTime [optNoSettle, optAtSentinel] = none :=
  ⟨rfl, by decide, rfl, by decide, by decide⟩

/-- C10 as amended: instruments lacking settlement_time sort with the
sentinel key.  Whenever some instrument carries a settlement_time strictly
below the sentinel string, no instrument lacking the field reaches the
nearest-expiry set; and when every instrument lacks the field they are all
retained, the reported nearest expiry being absent. -/
theorem missing_settlement_sentinel (opts : List Product) :
    (∀ p ∈ opts, ∀ t, p.settlement_time = some t → strLt t sentinelTime = true →
        ∀ o ∈ nearestExpirySelection opts, o.settlement_time ≠ none) ∧
      ((∀ p ∈ opts, p.settlement_time = none) →
        (∀ o, o ∈ nearestExpirySelection opts ↔ o ∈ opts) ∧
          nearestExpiryTime opts = none) := by
  have hperm := sortedBySettlement_perm opts
  have hsort := sortedBySettlement_sorted opts
  cases hl : sortedBySettlement opts with
  | nil =>
      rw [hl] at hperm
      have hnil : opts = [] := hperm.symm.eq_nil
      subst hnil
      constructor
      · intro p hp
        exact absurd hp (List.not_mem_nil p)
      · intro _
        constructor
        · intro o
          rw [show nearestExpirySelection ([] : List Product) = [] from rfl]
        · rfl
  | cons f rest =>
      rw [hl] at hperm hsort
      have hf_opts : f ∈ opts := hperm.mem_iff.mp (List.mem_cons_self f rest)
      constructor
      · intro p hp t ht hlt o ho
        simp only [nearestExpirySelection, hl] at ho
        rcases List.mem_filter.mp ho with ⟨_, hbeq⟩
        have hsl : strLe sentinelTime t = false := by simpa [strLt] using hlt
        cases hf : f.settlement_time with
        | none =>
            exfalso
            have hk : strLe (Option.getD f.settlement_time sentinelTime)
                (Option.getD p.settlement_time sentinelTime) = true := by
              rcases List.mem_cons.mp (hperm.mem_iff.mpr hp) with rfl | hp'
              · exact strLe_refl _
              · exact List.rel_of_sorted_cons hsort p hp'
            rw [hf, ht] at hk
            have hk' : strLe sentinelTime t = true := hk
            rw [hk'] at hsl
            exact Bool.noConfusion hsl
        | some v =>
            have ho_eq : o.settlement_time = f.settlement_time := by simpa using hbeq
            rw [ho_eq, hf]
            simp
      · intro hall
        have hfnone : f.settlement_time = none := hall f hf_opts
        have hfilter : (f :: rest).filter
            (fun o => o.settlement_time == f.settlement_time) = f :: rest := by
          apply List.filter_eq_self.mpr
          intro a ha
          have ha_opts : a ∈ opts := hperm.mem_iff.mp ha
          show (a.settlement_time == f.settlement_time) = true
          rw [hall a ha_opts, hfnone]
          rfl
        constructor
        · intro o
          simp only [nearestExpirySelection, hl, hfilter]
          exact hperm.mem_iff
        · simp only [nearestExpiryTime, hl]
          exact hfnone

/-- Witness for C10 as amended: with one instrument lacking the field and
one expired instrument below the sentinel, the selected instrument carries a
settlement_time. -/
theorem missing_settlement_sentinel_witness :
    pastCall.settlement_time ≠ none :=
  (missing_settlement_sentinel [optNoSettle, pastCall]).1 pastCall (by decide)
    "2020-01-01T00:00:00Z" rfl (by decide) pastCall (by decide)

/-- Spec scenario P4 evaluated concretely: among settlement times
[T2, T1, T1, T3] exactly the two T1 instruments are retained. -/
theorem scenario_p4_concrete :
    nearestExpirySelection [instT2, instT1a, instT1b, instT3] = [instT1a, instT1b] := by
  decide

/-- Spec scenario C evaluated concretely: a call with no matching put still
yields a row, its put side rendered with the defaults. -/
theorem scenario_call_only_concrete :
    buildChainRows [callA, putP] = [⟨100, "A", 1, "P", 4⟩] ∧
      buildChainRows [callA] = [⟨100, "A", 1, "", 0⟩] := by
  exact ⟨by decide, by decide⟩

end OptionsChain
